import Mathlib

/-!
# Verification of the node-hotkeys matching core

A shallow embedding of `src/hotkeys.js`: the hotkey specification parser
(`_getHotkeysFromOptions`), the predicate matcher (`_testHotkey`), the
registry operations (`registerHotkey`, `removeHotkey`), dispatch
(`handleKeys`), the event formatter (`_toHotkeyStr`), the next-hotkey
waiter (`getNextHotkey`) and the debounce engine (`debounce`,
`_handleInputs`, `_handleDebounce`).

JavaScript values are embedded as follows: strings as `String`, numbers
as `Nat`, a possibly-absent object property as `Option`, the `NaN` that
`"".charCodeAt(0)` produces as the inner `none` of
`Option (Option Nat)` (NaN compares unequal to everything, including
itself), callbacks as opaque numeric identifiers, and timed/stateful
code as explicit state passing over a discrete timeline.
-/

namespace NodeHotkeys

/-- The `charsMap` object of `src/hotkeys.js` (lines 52-83), in source
order: named keys and their raw key codes. -/
def charsMap : List (String × Nat) :=
  [("backspace", 8), ("tab", 9), ("enter", 13), ("capslock", 20),
   ("esc", 27), ("pgup", 33), ("space", 32), ("pgdn", 34), ("end", 35),
   ("home", 36), ("left", 37), ("up", 38), ("right", 39), ("down", 40),
   ("prtsc", 44), ("insert", 45), ("delete", 46), ("cmd", 91),
   ("F1", 112), ("F2", 113), ("F3", 114), ("F4", 115), ("F5", 116),
   ("F6", 117), ("F7", 118), ("F8", 119), ("F9", 120), ("F10", 121),
   ("F11", 122), ("F12", 123)]

/-- Own-key lookup of a name in the named-key table (the own,
enumerable properties of the `charsMap` object literal - what a
`for (let key in charsMap)` loop such as the one in `_toHotkeyStr`
enumerates, since the members inherited from `Object.prototype` are
non-enumerable). -/
def charsMapLookup (k : String) : Option Nat :=
  (charsMap.find? (fun p => p.1 == k)).map (fun p => p.2)

/-- A JavaScript value that can end up in a hotkey's `rawcode`
property: a number from the named-key table (or a character code), or
a member inherited from `Object.prototype` through the prototype chain
(a function such as `toString`, or the `__proto__` object), identified
by its property name. Two reads of the same inherited property yield
the same object, so equality of names models JavaScript (loose or
strict) equality of the values; an inherited member never equals a
number. -/
inductive JsVal where
  | num (n : Nat)
  | inherited (name : String)
deriving DecidableEq, Repr

/-- The own property names of `Object.prototype` in Node: the names for
which `name in obj` is true on any plain object literal even though the
object does not define them itself. -/
def objectPrototypeNames : List String :=
  ["constructor", "__defineGetter__", "__defineSetter__",
   "hasOwnProperty", "__lookupGetter__", "__lookupSetter__",
   "isPrototypeOf", "propertyIsEnumerable", "toString", "valueOf",
   "__proto__", "toLocaleString"]

/-- The JavaScript `in` operator on the `charsMap` object literal
(line 140's `lastKey in charsMap`): true for the table's own keys and
for every property name inherited from `Object.prototype`. -/
def jsInCharsMap (k : String) : Bool :=
  (charsMapLookup k).isSome || objectPrototypeNames.contains k

/-- The JavaScript property read `charsMap[k]` (line 141), which also
walks the prototype chain: a table entry's number, an inherited
`Object.prototype` member, or `undefined` (`none`). -/
def charsMapGet (k : String) : Option JsVal :=
  match charsMapLookup k with
  | some n => some (.num n)
  | none =>
    if objectPrototypeNames.contains k then some (.inherited k) else none

/-- JavaScript `String.prototype.trim`, on the character list. -/
def jsTrim (s : String) : String :=
  String.mk (((s.data.dropWhile Char.isWhitespace).reverse.dropWhile
    Char.isWhitespace).reverse)

/-- Fuel-driven splitter behind `jsSplit`: splits `l` at every
occurrence of the (non-empty) separator `sep`, like JavaScript
`String.prototype.split`. The fuel is the length of the list, which
bounds the number of split points. -/
def splitGo (sep : List Char) : Nat → List Char → List (List Char)
  | _, [] => [[]]
  | 0, l => [l]
  | fuel + 1, x :: xs =>
    if sep.isPrefixOf (x :: xs) then
      [] :: splitGo sep fuel ((x :: xs).drop sep.length)
    else
      match splitGo sep fuel xs with
      | [] => [[]]
      | h :: t => (x :: h) :: t

/-- JavaScript `s.split(sep)` for a non-empty separator (the only way
the source calls it: the literal `","` and the defaulted `splitKey`). -/
def jsSplit (sep s : String) : List String :=
  (splitGo sep.data s.data.length s.data).map (fun l => String.mk l)

/-- JavaScript `array.join(",")` (used by `removeHotkey`) /
`array.join(sep)` (used by `_toHotkeyStr`). -/
def joinWith (sep : String) : List String → String
  | [] => ""
  | [s] => s
  | s :: rest => s ++ sep ++ joinWith sep rest

/-- `entry.hotkeys.reduce(...).join(",")` of `removeHotkey`. -/
def joinComma (l : List String) : String :=
  joinWith "," l

/-- Substring containment, JavaScript `s.indexOf(sub) != -1`. -/
def containsSub (needle : List Char) : List Char → Bool
  | [] => needle.isEmpty
  | x :: xs => needle.isPrefixOf (x :: xs) || containsSub needle xs

/-- JavaScript `s.charCodeAt(0)`: `none` models the `NaN` returned on
the empty string. -/
def charCodeAt0 (s : String) : Option Nat :=
  s.data.head?.map Char.toNat

/-- A keyboard event as delivered by the iohook collaborator: modifier
flags, character code and raw key code (`KeypressEvent` typedef,
lines 15-22). -/
structure KeyEvent where
  altKey : Bool
  ctrlKey : Bool
  shiftKey : Bool
  keychar : Nat
  rawcode : Nat
deriving DecidableEq, Repr

/-- The shape `_testHotkey` reads from its second argument, which in the
source is either a `KeypressEvent` or a registered `Hotkey` object:
flags plus possibly-absent `keychar` / `rawcode` properties. For
`keychar` the inner `none` models `NaN`. -/
structure EvtView where
  altKey : Bool
  ctrlKey : Bool
  shiftKey : Bool
  keychar : Option (Option Nat)
  rawcode : Option JsVal
deriving DecidableEq, Repr

/-- A parsed hotkey predicate (`Hotkey` typedef, lines 1-13): one per
comma-separated token of a specification. -/
structure Hotkey where
  hotkeyStr : String
  shiftKey : Bool
  altKey : Bool
  ctrlKey : Bool
  matchAllModifiers : Bool
  useKeyDown : Bool
  keychar : Option (Option Nat) := none
  rawcode : Option JsVal := none
deriving DecidableEq, Repr

/-- A real keypress event viewed as `_testHotkey`'s second argument:
both `keychar` and `rawcode` properties are present numbers. -/
def KeyEvent.toView (e : KeyEvent) : EvtView :=
  ⟨e.altKey, e.ctrlKey, e.shiftKey, some (some e.keychar),
   some (.num e.rawcode)⟩

/-- A registered hotkey object viewed as `_testHotkey`'s second argument
(as `removeHotkey` does when matching removal predicates against
registered ones). -/
def Hotkey.toView (h : Hotkey) : EvtView :=
  ⟨h.altKey, h.ctrlKey, h.shiftKey, h.keychar, h.rawcode⟩

/-- JavaScript loose equality `a == b` on the `keychar` property:
`some (some n)` is a number, `some none` is `NaN` (never equal to
anything), `none` is an absent property (`undefined`, loosely equal
only to `undefined`). -/
def jsLooseEqNum : Option (Option Nat) → Option (Option Nat) → Bool
  | some (some a), some (some b) => a == b
  | none, none => true
  | _, _ => false

/-- One modifier comparison of `_testHotkey` (lines 192-202): exact
equality under `matchAllModifiers`, otherwise only required-implies-
present. -/
def modOk (matchAll hm em : Bool) : Bool :=
  if matchAll then hm == em else !(hm && !em)

/-- `_testHotkey` (lines 179-205): main-key match by `rawcode` when the
hotkey has own property `rawcode`, else by `keychar`; then the three
modifier checks. -/
def _testHotkey (h : Hotkey) (e : EvtView) : Bool :=
  (if h.rawcode.isSome then
    match h.rawcode, e.rawcode with
    | some a, some b => a == b
    | _, _ => false
  else
    jsLooseEqNum h.keychar e.keychar) &&
  modOk h.matchAllModifiers h.altKey e.altKey &&
  modOk h.matchAllModifiers h.ctrlKey e.ctrlKey &&
  modOk h.matchAllModifiers h.shiftKey e.shiftKey

/-- The `keys` local of `_getHotkeysFromOptions` (lines 124-128): a
string array when `cmd.indexOf(splitKey)` is truthy (i.e. the split key
does not occur at position 0), the raw string otherwise. -/
inductive KeysVal where
  | list : List String → KeysVal
  | str : String → KeysVal
deriving DecidableEq, Repr

/-- `keys` computed from a comma token (lines 125-128): split on the
split key and trim each piece, unless the token starts with the split
key (`indexOf` returns the falsy `0`), in which case `keys` is the
token string itself. -/
def keysOf (splitKey cmd : String) : KeysVal :=
  if !(splitKey.data.isPrefixOf cmd.data) then
    .list ((jsSplit splitKey cmd).map jsTrim)
  else
    .str cmd

/-- `keys.indexOf(name) != -1` (lines 132-134): array membership, or
substring search when `keys` is a string. -/
def keysHas (kv : KeysVal) (name : String) : Bool :=
  match kv with
  | .list l => l.contains name
  | .str s => containsSub name.data s.data

/-- `keys[keys.length - 1]` (line 139): the last array element, or the
last character when `keys` is a string (the out-of-range `undefined`
cases are unreachable and modelled as `""`). -/
def lastKeyOf : KeysVal → String
  | .list l => l.getLast?.getD ""
  | .str s =>
    match s.data.getLast? with
    | some c => String.mk [c]
    | none => ""

/-- The options object accepted by `on` / `remove` (`HotkeysOptions`
typedef, lines 24-33); absent properties are `none` and callbacks are
carried separately as opaque identifiers. -/
structure HotkeysOptions where
  hotkeys : String
  splitKey : Option String := none
  triggerAll : Option Bool := none
  capitalization : Option Bool := none
  matchAllModifiers : Option Bool := none
  useKeyDown : Option Bool := none
deriving DecidableEq, Repr

/-- `options.splitKey = options.splitKey || "+"` (line 117): an absent
or empty (falsy) split key defaults to `"+"`. -/
def resolvedSplitKey (o : HotkeysOptions) : String :=
  match o.splitKey with
  | some s => if s = "" then "+" else s
  | none => "+"

/-- The option values `_getHotkeysFromOptions` reads after the
defaulting assignments of lines 117-120. -/
structure ParseCfg where
  splitKey : String
  capitalization : Bool
  matchAllModifiers : Bool
  useKeyDown : Bool
deriving DecidableEq, Repr

/-- The defaulted parse configuration of an options object
(lines 117-120; `x || false` collapses an absent flag to `false`). -/
def parseCfgOf (o : HotkeysOptions) : ParseCfg :=
  ⟨resolvedSplitKey o, o.capitalization.getD false,
   o.matchAllModifiers.getD false, o.useKeyDown.getD false⟩

/-- `options.hotkeys.split(",").map(s => s.trim())` (line 122). -/
def cmdsOf (o : HotkeysOptions) : List String :=
  (jsSplit "," o.hotkeys).map jsTrim

/-- The main key of a comma token: `keys[keys.length - 1]` (line 139). -/
def mainKeyOf (splitKey cmd : String) : String :=
  lastKeyOf (keysOf splitKey cmd)

/-- The error message of line 158. -/
def errMsg (k : String) : String :=
  "The key " ++ k ++ " is invalid."

/-- The object literal of lines 130-137: the flags scanned from every
sub-key (the main key included) and the option-derived fields, before
the main key is resolved. -/
def baseHotkey (cfg : ParseCfg) (cmd : String) : Hotkey :=
  { hotkeyStr := cmd
    shiftKey := keysHas (keysOf cfg.splitKey cmd) "shift"
    altKey := keysHas (keysOf cfg.splitKey cmd) "alt"
    ctrlKey := keysHas (keysOf cfg.splitKey cmd) "ctrl"
    matchAllModifiers := cfg.matchAllModifiers
    useKeyDown := cfg.useKeyDown }

/-- The body of the `for (let cmd of cmds)` loop of
`_getHotkeysFromOptions` (lines 123-168): build one `Hotkey` from one
comma token, or throw on an invalid multi-character main key. -/
def parseToken (cfg : ParseCfg) (cmd : String) : Except String Hotkey :=
  if jsInCharsMap (mainKeyOf cfg.splitKey cmd) then
    .ok { baseHotkey cfg cmd with
      rawcode := charsMapGet (mainKeyOf cfg.splitKey cmd) }
  else if mainKeyOf cfg.splitKey cmd = "plus" then
    .ok { baseHotkey cfg cmd with keychar := some (some 43) }
  else if mainKeyOf cfg.splitKey cmd = "shift" then
    .ok { baseHotkey cfg cmd with rawcode := some (.num 160) }
  else if mainKeyOf cfg.splitKey cmd = "ctrl" then
    .ok { baseHotkey cfg cmd with rawcode := some (.num 162) }
  else if mainKeyOf cfg.splitKey cmd = "alt" then
    .ok { baseHotkey cfg cmd with rawcode := some (.num 164) }
  else if (mainKeyOf cfg.splitKey cmd).data.length > 1 then
    .error (errMsg (mainKeyOf cfg.splitKey cmd))
  else if !cfg.capitalization &&
      (match (mainKeyOf cfg.splitKey cmd).data with
        | [c] => c.isAlpha
        | _ => false) then
    .ok { baseHotkey cfg cmd with
      rawcode := some (.num (match (mainKeyOf cfg.splitKey cmd).data with
        | [c] => c.toUpper.toNat
        | _ => 0)) }
  else
    .ok { baseHotkey cfg cmd with
      keychar := some (charCodeAt0 (mainKeyOf cfg.splitKey cmd)) }

/-- The token loop of `_getHotkeysFromOptions` over the whole comma
list: the first invalid token aborts the parse. -/
def parseTokens (cfg : ParseCfg) : List String → Except String (List Hotkey)
  | [] => .ok []
  | c :: rest =>
    match parseToken cfg c with
    | .error m => .error m
    | .ok h =>
      match parseTokens cfg rest with
      | .error m => .error m
      | .ok hs => .ok (h :: hs)

/-- `_getHotkeysFromOptions` (lines 115-171). -/
def _getHotkeysFromOptions (o : HotkeysOptions) : Except String (List Hotkey) :=
  parseTokens (parseCfgOf o) (cmdsOf o)

/-- A registry entry: `registerHotkey` pushes either the parsed hotkey
objects themselves (each with its own callback, `triggerAll` mode,
lines 215-219) or one wrapper object `{hotkeys, hotkeyStr, callback}`
(lines 221-225). The wrapper carries no `useKeyDown` property. -/
inductive Entry where
  | single (h : Hotkey) (cb : Nat)
  | group (hotkeys : List Hotkey) (hotkeyStr : String) (cb : Nat)
deriving DecidableEq, Repr

/-- `registerHotkey` (lines 211-227), over an explicit registry
state; the thrown parse error propagates as `Except.error`. -/
def registerHotkey (o : HotkeysOptions) (cb : Nat) (reg : List Entry) :
    Except String (List Entry) :=
  match _getHotkeysFromOptions o with
  | .error m => .error m
  | .ok hks =>
    if o.triggerAll.getD false then
      .ok (reg ++ hks.map (fun h => .single h cb))
    else
      .ok (reg ++ [.group hks (jsTrim o.hotkeys) cb])

/-- The inner `for (let hotkey of hotkeys)` loop of `removeHotkey` on a
group entry (lines 239-254): for each removal predicate, drop the
matching members, bail out (entry removed) if none remain, and rejoin
`hotkeyStr` from the survivors with `","`. -/
def removeGroupGo (removal : List Hotkey) (hs : List Hotkey) (str : String) :
    Option (List Hotkey × String) :=
  match removal with
  | [] => some (hs, str)
  | r :: rest =>
    let hs' := hs.filter (fun m => !(_testHotkey r m.toView))
    if hs'.isEmpty then none
    else removeGroupGo rest hs' (joinComma (hs'.map (fun h => h.hotkeyStr)))

/-- The body of the `filter` callback of `removeHotkey` (lines
238-262) on one entry: `none` means the entry is dropped. -/
def removeFromEntry (removal : List Hotkey) : Entry → Option Entry
  | .single h cb =>
    if removal.any (fun r => _testHotkey r h.toView) then none
    else some (.single h cb)
  | .group hs str cb =>
    match removeGroupGo removal hs str with
    | none => none
    | some (hs', str') => some (.group hs' str' cb)

/-- `removeHotkey` (lines 234-263): force `matchAllModifiers = true`,
parse the removal specification, then filter the registry. -/
def removeHotkey (o : HotkeysOptions) (reg : List Entry) :
    Except String (List Entry) :=
  match _getHotkeysFromOptions { o with matchAllModifiers := some true } with
  | .error m => .error m
  | .ok removal => .ok (reg.filterMap (removeFromEntry removal))

/-- `registerHotkey` at the call boundary: on a thrown parse error the
registry global is left untouched and the message propagates. -/
def registerHotkeyRun (o : HotkeysOptions) (cb : Nat) (reg : List Entry) :
    List Entry × Option String :=
  match registerHotkey o cb reg with
  | .ok r => (r, none)
  | .error m => (reg, some m)

/-- `removeHotkey` at the call boundary, like `registerHotkeyRun`. -/
def removeHotkeyRun (o : HotkeysOptions) (reg : List Entry) :
    List Entry × Option String :=
  match removeHotkey o reg with
  | .ok r => (r, none)
  | .error m => (reg, some m)

/-- One iteration of the `for (let hotkey of _registeredHotkeys)` loop
of `handleKeys` (lines 381-398): the callback invocations (callback id,
argument string) this entry produces for the event. A group wrapper has
no `useKeyDown` property, so `isDown && !hotkey.useKeyDown` is `isDown`
for it and it is skipped on every key-down event. -/
def entryFired (e : KeyEvent) (isDown : Bool) : Entry → List (Nat × String)
  | .single h cb =>
    if isDown && !h.useKeyDown then []
    else if _testHotkey h e.toView then [(cb, h.hotkeyStr)] else []
  | .group hs str cb =>
    if isDown then []
    else if hs.any (fun k => _testHotkey k e.toView) then [(cb, str)] else []

/-- The registry-dispatch part of `handleKeys` (lines 381-398): the
callback invocations for one event, in registration order. -/
def handleKeysFired (reg : List Entry) (e : KeyEvent) (isDown : Bool) :
    List (Nat × String) :=
  (reg.map (entryFired e isDown)).flatten

/-- `_toHotkeyStr` (lines 270-298): canonicalize an event into a
specification string, modifiers in the fixed order alt, ctrl, shift,
then the main-key token. -/
def _toHotkeyStr (e : KeyEvent) : String :=
  let mods := (if e.altKey then ["alt"] else []) ++
    (if e.ctrlKey then ["ctrl"] else []) ++
    (if e.shiftKey then ["shift"] else [])
  let parts :=
    match charsMap.find? (fun p => p.2 == e.rawcode) with
    | some p => mods ++ [p.1]
    | none =>
      if e.keychar == 43 then mods ++ ["plus"]
      else if e.rawcode == 160 || e.rawcode == 162 || e.rawcode == 164 then
        mods
      else mods ++ [String.mk [Char.ofNat e.keychar]]
  joinWith " + " parts

/-- The module state behind `getNextHotkey` (lines 96-108): the single
pending promise slot (modelled by an identifier), the key-down
inclusion flag, and a counter supplying fresh promise identifiers. -/
structure WaiterState where
  pendingId : Option Nat
  includingKeydown : Bool
  nextId : Nat
deriving DecidableEq, Repr

/-- `getNextHotkey` (lines 355-370): always overwrite
`_includingKeydownEvent`, then return the pending promise if there is
one, else create and store a fresh one. -/
def getNextHotkey (includeKeydownEvent : Bool) (s : WaiterState) :
    Nat × WaiterState :=
  let s := { s with includingKeydown := includeKeydownEvent }
  match s.pendingId with
  | some id => (id, s)
  | none =>
    (s.nextId,
     { s with pendingId := some s.nextId, nextId := s.nextId + 1 })

/-- The waiter part of `handleKeys` (lines 377-379) together with the
slot-clearing `then` continuation (lines 362-366): if a resolver is
stored and the event qualifies, resolve the pending promise with the
formatted event and clear the slot. Returns the resolution (promise
identifier, resolved string), if any. -/
def waiterDispatch (e : KeyEvent) (isDown : Bool) (s : WaiterState) :
    Option (Nat × String) × WaiterState :=
  match s.pendingId with
  | some id =>
    if !isDown || s.includingKeydown then
      (some (id, _toHotkeyStr e), { s with pendingId := none })
    else (none, s)
  | none => (none, s)

/-- The listener object pushed by `debounce` (lines 340-348). Note the
source initializes a field literally named `started: false` and never a
`start` property, so the `start` read by `_handleInputs` and
`_handleDebounce` is initially absent (`none`). -/
structure DebEntry where
  triggerTime : Nat
  started : Bool
  value : String
  events : List KeyEvent
  cb : Nat
deriving DecidableEq, Repr

/-- `debounce` (lines 340-348) over an explicit listener list. The
second component is the function's JavaScript return value: the body
has no `return` statement, so every call returns `undefined`
(`none`) - there is no id. -/
def debounce (ms : Nat) (cb : Nat) (st : List DebEntry) :
    List DebEntry × Option String :=
  (st ++ [⟨ms, false, "", [], cb⟩], none)

/-- The per-listener debounce state read and written by
`_handleInputs` / `_handleDebounce`: `start` is the timestamp property
those functions use (absent until the first input). -/
structure DebListener where
  triggerTime : Nat
  start : Option Nat
  value : String
  events : List KeyEvent
deriving DecidableEq, Repr

/-- The body of the `for (let listener of ...)` loop of `_handleInputs`
(lines 323-333) for one listener at time `now`: append the event and
its character, schedule a check `triggerTime` from now if no window was
open, then stamp `start = now`. Returns the listener and the list of
outstanding scheduled check times. -/
def _handleInputsStep (now : Nat) (e : KeyEvent) (l : DebListener)
    (checks : List Nat) : DebListener × List Nat :=
  let l := { l with
    events := l.events ++ [e],
    value := l.value ++ String.mk [Char.ofNat e.keychar] }
  let checks := if l.start.isNone then checks ++ [now + l.triggerTime]
    else checks
  ({ l with start := some now }, checks)

/-- The `setTimeout` callback of `_handleDebounce` (lines 306-316)
firing at time `now`: flush and reset if the quiet period has elapsed
since `start`, otherwise reschedule for the remaining time. Returns the
listener, a newly scheduled check time (if any), and the callback
invocation `(time, value, events)` (if any). -/
def _handleDebounceCheck (now : Nat) (l : DebListener) :
    DebListener × Option Nat × Option (Nat × String × List KeyEvent) :=
  let timePassed := now - (l.start.getD 0)
  if l.triggerTime ≤ timePassed then
    ({ l with value := "", events := [], start := none }, none,
     some (now, l.value, l.events))
  else
    (l, some (now + (l.triggerTime - timePassed)), none)

/-- Discrete-event run of one debounce listener: `inputs` are the
character events (in time order), `checks` the outstanding scheduled
check times; at each step the earliest due occurrence (input before a
check due at the same instant) is processed. Returns the log of
callback invocations `(time, value, events)`. -/
def debSim : Nat → List (Nat × KeyEvent) → List Nat → DebListener →
    List (Nat × String × List KeyEvent) → List (Nat × String × List KeyEvent)
  | 0, _, _, _, log => log
  | fuel + 1, inputs, checks, l, log =>
    match inputs, checks.min? with
    | [], none => log
    | (t, e) :: rest, none =>
      let (l', checks') := _handleInputsStep t e l []
      debSim fuel rest checks' l' log
    | [], some c =>
      let (l', resched, fired) := _handleDebounceCheck c l
      debSim fuel [] ((checks.erase c) ++ resched.toList) l'
        (log ++ (fired.map (fun f => [f])).getD [])
    | (t, e) :: rest, some c =>
      if t ≤ c then
        let (l', checks') := _handleInputsStep t e l checks
        debSim fuel rest checks' l' log
      else
        let (l', resched, fired) := _handleDebounceCheck c l
        debSim fuel ((t, e) :: rest) ((checks.erase c) ++ resched.toList) l'
          (log ++ (fired.map (fun f => [f])).getD [])

/-! ## Claim theorems -/

/-- C1: after registering the specification "ctrl + a, a" with
`matchAllModifiers = false` and `triggerAll = true`, dispatching a press
event with `ctrlKey = true` and `rawcode = 65` invokes the callback
exactly twice, first with "ctrl + a" and then with "a" (registration
order); dispatching a press event with `shiftKey = true` (ctrl and alt
false) and `rawcode = 65` invokes it exactly once, with "a". -/
theorem C1_trigger_all_scenario :
    handleKeysFired
        (registerHotkeyRun
          { hotkeys := "ctrl + a, a", matchAllModifiers := some false,
            triggerAll := some true } 0 []).1
        ⟨false, true, false, 97, 65⟩ false = [(0, "ctrl + a"), (0, "a")] ∧
    handleKeysFired
        (registerHotkeyRun
          { hotkeys := "ctrl + a, a", matchAllModifiers := some false,
            triggerAll := some true } 0 []).1
        ⟨false, false, true, 65, 65⟩ false = [(0, "a")] := by
  exact ⟨rfl, rfl⟩

/-- C2: the code drops the claimed behaviour for group entries.
Registering "left" with `useKeyDown = true` in default (group) mode
produces a group whose single member predicate declares `useKeyDown`
and matches the key-down event with `rawcode = 37`, yet dispatching
that key-down event invokes no callback: the group wrapper object
carries no `useKeyDown` property, so `isDown && !hotkey.useKeyDown`
skips every group on every key-down event. -/
theorem C2_group_keydown_skipped :
    registerHotkeyRun { hotkeys := "left", useKeyDown := some true } 0 [] =
      ([.group [⟨"left", false, false, false, false, true, none, some (.num 37)⟩]
          "left" 0], none) ∧
    (⟨"left", false, false, false, false, true, none, some (.num 37)⟩ :
        Hotkey).useKeyDown = true ∧
    _testHotkey ⟨"left", false, false, false, false, true, none, some (.num 37)⟩
      (KeyEvent.toView ⟨false, false, false, 0, 37⟩) = true ∧
    handleKeysFired
      [.group [⟨"left", false, false, false, false, true, none, some (.num 37)⟩]
        "left" 0]
      ⟨false, false, false, 0, 37⟩ true = [] := by
  exact ⟨rfl, rfl, rfl, rfl⟩

/-- C3 counterexample: a remove call whose predicates match nothing
still rewrites a group's display string. Register "ctrl + a, a"
(group mode): the entry's `hotkeyStr` is "ctrl + a, a". Removing "b"
matches neither member, yet afterwards the entry's `hotkeyStr` is
"ctrl + a,a" (the "," rejoin drops the space) - the entry is not
retained completely unchanged. -/
theorem C3_counterexample :
    (registerHotkeyRun { hotkeys := "ctrl + a, a" } 0 []).1 =
      [.group [⟨"ctrl + a", false, false, true, false, false, none, some (.num 65)⟩,
               ⟨"a", false, false, false, false, false, none, some (.num 65)⟩]
        "ctrl + a, a" 0] ∧
    _getHotkeysFromOptions
      { hotkeys := "b", matchAllModifiers := some true } =
      .ok [⟨"b", false, false, false, true, false, none, some (.num 66)⟩] ∧
    _testHotkey ⟨"b", false, false, false, true, false, none, some (.num 66)⟩
      (Hotkey.toView
        ⟨"ctrl + a", false, false, true, false, false, none, some (.num 65)⟩) =
      false ∧
    _testHotkey ⟨"b", false, false, false, true, false, none, some (.num 66)⟩
      (Hotkey.toView ⟨"a", false, false, false, false, false, none, some (.num 65)⟩) =
      false ∧
    removeHotkeyRun { hotkeys := "b" }
        (registerHotkeyRun { hotkeys := "ctrl + a, a" } 0 []).1 =
      ([.group [⟨"ctrl + a", false, false, true, false, false, none, some (.num 65)⟩,
                ⟨"a", false, false, false, false, false, none, some (.num 65)⟩]
         "ctrl + a,a" 0], none) ∧
    ("ctrl + a,a" : String) ≠ "ctrl + a, a" := by
  refine ⟨rfl, rfl, rfl, rfl, rfl, by decide⟩

/-- C4 counterexample: immediately after registering "ctrl + a, a"
(a reachable state), the group's display string is the trimmed original
specification "ctrl + a, a", which is not the comma-join of its
members' source texts ("ctrl + a,a"), so the claimed displayText
invariant does not hold at every reachable state. -/
theorem C4_counterexample :
    (registerHotkeyRun { hotkeys := "ctrl + a, a" } 0 []).1 =
      [.group [⟨"ctrl + a", false, false, true, false, false, none, some (.num 65)⟩,
               ⟨"a", false, false, false, false, false, none, some (.num 65)⟩]
        "ctrl + a, a" 0] ∧
    joinComma
        ([⟨"ctrl + a", false, false, true, false, false, none, some (.num 65)⟩,
          (⟨"a", false, false, false, false, false, none, some (.num 65)⟩ : Hotkey)].map
          (fun h => h.hotkeyStr)) = "ctrl + a,a" ∧
    ("ctrl + a, a" : String) ≠ "ctrl + a,a" := by
  refine ⟨rfl, rfl, by decide⟩

/-- C5 counterexample: "a + ctrl" does not parse to a predicate
matching the same events as "ctrl + a". The last sub-key is the main
key, so "a + ctrl" yields the bare-ctrl predicate (rawcode 162): the
event with ctrlKey and rawcode 65 matches the predicate of "ctrl + a"
but not that of "a + ctrl". -/
theorem C5_counterexample :
    (_getHotkeysFromOptions { hotkeys := "a + ctrl" }).map
        (fun l => l.map (fun h =>
          _testHotkey h (KeyEvent.toView ⟨false, true, false, 97, 65⟩))) =
      .ok [false] ∧
    (_getHotkeysFromOptions { hotkeys := "ctrl + a" }).map
        (fun l => l.map (fun h =>
          _testHotkey h (KeyEvent.toView ⟨false, true, false, 97, 65⟩))) =
      .ok [true] := by
  exact ⟨rfl, rfl⟩

/-- C7: a single debounce listener with a 500 ms quiet period receiving
character events at t = 0, 200 and 600 fires its callback exactly once,
at t = 1100, with all three characters buffered in arrival order; each
check that finds the elapsed quiet time short reschedules for the
remaining time instead of firing again. -/
theorem C7_debounce_scenario :
    debSim 10
        [(0, ⟨false, false, false, 97, 65⟩),
         (200, ⟨false, false, false, 98, 66⟩),
         (600, ⟨false, false, false, 99, 67⟩)] [] ⟨500, none, "", []⟩ [] =
      [(1100, "abc",
        [⟨false, false, false, 97, 65⟩, ⟨false, false, false, 98, 66⟩,
         ⟨false, false, false, 99, 67⟩])] := by
  rfl

/-- C8: the code does not return a fresh unique id from the
debounce-listener registration. `debounce` creates the listener with
empty buffers, but its body has no return statement, so every call
returns `undefined` (`none`) - two successive calls return equal,
non-distinct values, and there is no id identifying the listener for
removal (the module exports no `removeDebounce`, though the README and
`test-debounce.js` use one). -/
theorem C8_debounce_returns_no_id :
    (debounce 500 0 []).1 = [⟨500, false, "", [], 0⟩] ∧
    (debounce 500 0 []).2 = none ∧
    (debounce 1000 1 (debounce 500 0 []).1).2 = none ∧
    (debounce 1000 1 (debounce 500 0 []).1).2 = (debounce 500 0 []).2 := by
  exact ⟨rfl, rfl, rfl, rfl⟩

/-- C9: while a `getNextHotkey(false)` request is pending (key-down
inclusion off), a key-down event never resolves the pending deferred
and leaves the state unchanged; a press event resolves it with the
formatter's string for that event and clears the single pending slot;
and a `getNextHotkey` call made while a request is pending returns the
same deferred rather than stacking a new one. -/
theorem C9_waiter_single_slot :
    (∀ (s : WaiterState) (e : KeyEvent), s.includingKeydown = false →
      waiterDispatch e true s = (none, s)) ∧
    (∀ (s : WaiterState) (e : KeyEvent) (id : Nat), s.pendingId = some id →
      waiterDispatch e false s =
        (some (id, _toHotkeyStr e), { s with pendingId := none })) ∧
    (∀ (s : WaiterState) (b : Bool) (id : Nat), s.pendingId = some id →
      (getNextHotkey b s).1 = id ∧
        ((getNextHotkey b s).2).pendingId = some id) := by
  refine ⟨?_, ?_, ?_⟩
  · rintro ⟨pid, inc, nid⟩ e h
    cases h
    cases pid <;> rfl
  · rintro ⟨pid, inc, nid⟩ e id h
    cases h
    rfl
  · rintro ⟨pid, inc, nid⟩ b id h
    cases h
    exact ⟨rfl, rfl⟩

/-- C9 witness: the waiter theorem applied at concrete states: a
pending slot with key-down inclusion off, a key-down event, then a
press event with ctrl + a. -/
theorem C9_waiter_witness :
    waiterDispatch ⟨false, false, false, 97, 65⟩ true ⟨some 0, false, 1⟩ =
      (none, ⟨some 0, false, 1⟩) ∧
    waiterDispatch ⟨false, true, false, 97, 65⟩ false ⟨some 0, false, 1⟩ =
      (some (0, _toHotkeyStr ⟨false, true, false, 97, 65⟩),
       ⟨none, false, 1⟩) ∧
    (getNextHotkey true ⟨some 0, false, 1⟩).1 = 0 := by
  exact ⟨C9_waiter_single_slot.1 _ _ rfl, C9_waiter_single_slot.2.1 _ _ _ rfl,
    (C9_waiter_single_slot.2.2 _ _ _ rfl).1⟩

/-- C10: a bare modifier name as the main key parses to a predicate
with the fixed physical rawcode for that modifier (alt 164, ctrl 162,
shift 160) and that modifier's own flag set (the flag scan covers every
sub-key, the main key included); with `matchAllModifiers = true` such a
predicate only matches events that also report the corresponding
modifier flag. -/
theorem C10_bare_modifier_predicates :
    (_getHotkeysFromOptions { hotkeys := "alt", matchAllModifiers := some true } =
        .ok [⟨"alt", false, true, false, true, false, none, some (.num 164)⟩] ∧
      _getHotkeysFromOptions { hotkeys := "ctrl", matchAllModifiers := some true } =
        .ok [⟨"ctrl", false, false, true, true, false, none, some (.num 162)⟩] ∧
      _getHotkeysFromOptions { hotkeys := "shift", matchAllModifiers := some true } =
        .ok [⟨"shift", true, false, false, true, false, none, some (.num 160)⟩]) ∧
    (∀ v : EvtView,
      _testHotkey ⟨"alt", false, true, false, true, false, none, some (.num 164)⟩ v =
        true → v.altKey = true) ∧
    (∀ v : EvtView,
      _testHotkey ⟨"ctrl", false, false, true, true, false, none, some (.num 162)⟩ v =
        true → v.ctrlKey = true) ∧
    (∀ v : EvtView,
      _testHotkey ⟨"shift", true, false, false, true, false, none, some (.num 160)⟩ v =
        true → v.shiftKey = true) := by
  refine ⟨⟨rfl, rfl, rfl⟩, ?_, ?_, ?_⟩
  · intro v h
    cases hv : v.altKey
    · rw [_testHotkey, modOk] at h
      simp [hv, modOk] at h
    · rfl
  · intro v h
    cases hv : v.ctrlKey
    · rw [_testHotkey] at h
      simp [hv, modOk] at h
    · rfl
  · intro v h
    cases hv : v.shiftKey
    · rw [_testHotkey] at h
      simp [hv, modOk] at h
    · rfl

/-- C10 witness: the parse equations hold and the matching consequence
applied at concrete matching views for each of the three modifiers. -/
theorem C10_bare_modifier_witness :
    (⟨true, false, false, none, some (.num 164)⟩ : EvtView).altKey = true ∧
    (⟨false, true, false, none, some (.num 162)⟩ : EvtView).ctrlKey = true ∧
    (⟨false, false, true, none, some (.num 160)⟩ : EvtView).shiftKey = true := by
  exact ⟨C10_bare_modifier_predicates.2.1 _ (by decide),
    C10_bare_modifier_predicates.2.2.1 _ (by decide),
    C10_bare_modifier_predicates.2.2.2 _ (by decide)⟩

/-- C5 amended: modifiers listed before the main key may come in any
order - "shift + ctrl + a" parses to a predicate matching exactly the
same events as "ctrl + shift + a" - and an event whose flags and
rawcode exactly match formats back, modifiers in the fixed order alt,
ctrl, shift, to "ctrl + shift + a" (and a ctrl + a event to
"ctrl + a"); but "a + ctrl" is NOT equivalent to "ctrl + a": the last
sub-key is taken as the main key, so it parses to the bare-ctrl
predicate with rawcode 162. -/
theorem C5_amended_roundtrip :
    (∀ v : EvtView,
      (_getHotkeysFromOptions { hotkeys := "shift + ctrl + a" }).map
          (fun l => l.map (fun h => _testHotkey h v)) =
        (_getHotkeysFromOptions { hotkeys := "ctrl + shift + a" }).map
          (fun l => l.map (fun h => _testHotkey h v))) ∧
    _toHotkeyStr ⟨false, true, true, 97, 65⟩ = "ctrl + shift + a" ∧
    _toHotkeyStr ⟨false, true, false, 97, 65⟩ = "ctrl + a" ∧
    (_getHotkeysFromOptions { hotkeys := "a + ctrl" }).map
        (fun l => l.map (fun h => h.rawcode)) = .ok [some (JsVal.num 162)] := by
  exact ⟨fun v => rfl, rfl, rfl, rfl⟩

/-- If no removal predicate matches any current member, the group loop
keeps the member list intact and (when at least one removal predicate
was processed) leaves the display string as the comma-join of the
members' source texts. -/
lemma removeGroupGo_nomatch (removal : List Hotkey) :
    ∀ (hs : List Hotkey) (str : String), hs ≠ [] →
    (∀ r ∈ removal, ∀ m ∈ hs, _testHotkey r m.toView = false) →
    removeGroupGo removal hs str =
      some (hs, if removal.isEmpty then str
        else joinComma (hs.map (fun h => h.hotkeyStr))) := by
  induction removal with
  | nil => intro hs str _ _; rfl
  | cons r rest ih =>
    intro hs str hne hno
    unfold removeGroupGo
    have hfil : hs.filter (fun m => !(_testHotkey r m.toView)) = hs :=
      List.filter_eq_self.mpr (fun m hm => by
        simp [hno r (List.mem_cons_self r rest) m hm])
    rw [hfil]
    rw [if_neg (by simp [List.isEmpty_eq_false, hne])]
    rw [ih hs (joinComma (hs.map (fun h => h.hotkeyStr))) hne
      (fun r' hr' => hno r' (List.mem_cons_of_mem r hr'))]
    cases rest <;> rfl

/-- C3 amended: an entry matched by no removal predicate keeps its
member predicate list; a single-predicate entry is retained completely
unchanged, while a Group keeps its members but has its display string
recomputed as the ","-join of the members' source texts (which can
differ from the pre-call display string in whitespace around commas). -/
theorem C3_amended_retention :
    (∀ (removal : List Hotkey) (h : Hotkey) (cb : Nat),
      (∀ r ∈ removal, _testHotkey r h.toView = false) →
      removeFromEntry removal (.single h cb) = some (.single h cb)) ∧
    (∀ (removal hs : List Hotkey) (str : String) (cb : Nat),
      hs ≠ [] →
      (∀ r ∈ removal, ∀ m ∈ hs, _testHotkey r m.toView = false) →
      removeFromEntry removal (.group hs str cb) =
        some (.group hs
          (if removal.isEmpty then str
           else joinComma (hs.map (fun h => h.hotkeyStr))) cb)) := by
  constructor
  · intro removal h cb hno
    have hany : (removal.any fun r => _testHotkey r h.toView) = false := by
      simp only [List.any_eq_false]
      intro r hr
      simp [hno r hr]
    show (if (removal.any fun r => _testHotkey r h.toView) = true then none
      else some (Entry.single h cb)) = some (Entry.single h cb)
    rw [hany]
    simp
  · intro removal hs str cb hne hno
    show (match removeGroupGo removal hs str with
      | none => none
      | some (hs', str') => some (Entry.group hs' str' cb)) =
      some (.group hs
        (if removal.isEmpty then str
         else joinComma (hs.map (fun h => h.hotkeyStr))) cb)
    rw [removeGroupGo_nomatch removal hs str hne hno]

/-- C3 amended witness: the retention theorem applied to the removal
predicate parsed from "b" and the entries produced by registering
"a" (single mode) and "ctrl + a, a" (group mode). -/
theorem C3_amended_witness :
    removeFromEntry [⟨"b", false, false, false, true, false, none, some (.num 66)⟩]
        (.single ⟨"a", false, false, false, false, false, none, some (.num 65)⟩ 0) =
      some (.single ⟨"a", false, false, false, false, false, none, some (.num 65)⟩ 0) ∧
    removeFromEntry [⟨"b", false, false, false, true, false, none, some (.num 66)⟩]
        (.group [⟨"ctrl + a", false, false, true, false, false, none, some (.num 65)⟩,
                 ⟨"a", false, false, false, false, false, none, some (.num 65)⟩]
          "ctrl + a, a" 0) =
      some (.group
        [⟨"ctrl + a", false, false, true, false, false, none, some (.num 65)⟩,
         ⟨"a", false, false, false, false, false, none, some (.num 65)⟩]
        "ctrl + a,a" 0) := by
  constructor
  · exact C3_amended_retention.1 _ _ _ (by decide)
  · exact C3_amended_retention.2 _ _ _ _ (by decide) (by decide)

/-- Well-formedness of a registry entry: a group wrapper never has an
empty member list. -/
def entryWF : Entry → Prop
  | .single _ _ => True
  | .group hs _ _ => hs ≠ []

/-- The registry states reachable from the initial empty registry by
any sequence of register and remove calls (at the call boundary, where
a thrown parse error leaves the registry untouched). -/
inductive Reachable : List Entry → Prop
  | init : Reachable []
  | register (o : HotkeysOptions) (cb : Nat) {reg : List Entry} :
      Reachable reg → Reachable ((registerHotkeyRun o cb reg).1)
  | remove (o : HotkeysOptions) {reg : List Entry} :
      Reachable reg → Reachable ((removeHotkeyRun o reg).1)

/-- The JavaScript splitter never produces an empty array. -/
lemma splitGo_ne_nil (sep : List Char) (fuel : Nat) (l : List Char) :
    splitGo sep fuel l ≠ [] := by
  cases l with
  | nil => simp [splitGo]
  | cons x xs =>
    cases fuel with
    | zero => simp [splitGo]
    | succ n =>
      unfold splitGo
      split
      · simp
      · split <;> simp

/-- `s.split(sep)` never returns an empty array. -/
lemma jsSplit_ne_nil (sep s : String) : jsSplit sep s ≠ [] := by
  unfold jsSplit
  simp only [ne_eq, List.map_eq_nil_iff]
  exact splitGo_ne_nil _ _ _

/-- A specification string always has at least one comma token. -/
lemma cmdsOf_ne_nil (o : HotkeysOptions) : cmdsOf o ≠ [] := by
  unfold cmdsOf
  simp only [ne_eq, List.map_eq_nil_iff]
  exact jsSplit_ne_nil _ _

/-- A successful parse of a non-empty token list yields a non-empty
predicate list. -/
lemma parseTokens_ok_ne_nil (cfg : ParseCfg) (cmds : List String)
    (l : List Hotkey) (h : parseTokens cfg cmds = .ok l) (hc : cmds ≠ []) :
    l ≠ [] := by
  cases cmds with
  | nil => exact absurd rfl hc
  | cons c rest =>
    unfold parseTokens at h
    cases hp : parseToken cfg c with
    | error m => rw [hp] at h; cases h
    | ok hk =>
      rw [hp] at h
      cases hq : parseTokens cfg rest with
      | error m => rw [hq] at h; cases h
      | ok hs =>
        rw [hq] at h
        cases h
        simp

/-- The group-removal loop never returns an empty surviving member
list. -/
lemma removeGroupGo_some_ne_nil :
    ∀ (removal hs : List Hotkey) (str : String) (hs' : List Hotkey)
      (str' : String), hs ≠ [] →
      removeGroupGo removal hs str = some (hs', str') → hs' ≠ [] := by
  intro removal
  induction removal with
  | nil =>
    intro hs str hs' str' hne h
    unfold removeGroupGo at h
    cases h
    exact hne
  | cons r rest ih =>
    intro hs str hs' str' hne h
    unfold removeGroupGo at h
    by_cases he : (hs.filter (fun m => !(_testHotkey r m.toView))).isEmpty = true
    · rw [if_pos he] at h; cases h
    · rw [if_neg he] at h
      exact ih _ _ _ _ (List.isEmpty_eq_false.mp (Bool.not_eq_true _ ▸
        Bool.eq_false_iff.mpr he)) h

/-- The group-removal loop: either the whole entry goes, or the
surviving members are a non-empty sublist whose rejoined display string
is the comma-join of their source texts (for a non-trivially processed
loop the input display is returned unchanged only when the removal list
is empty). -/
lemma removeGroupGo_spec :
    ∀ (removal hs : List Hotkey) (str : String),
      (removeGroupGo removal hs str = some (hs, str) ∧ removal = []) ∨
      removeGroupGo removal hs str = none ∨
      (∃ hs', hs' ≠ [] ∧ hs'.length ≤ hs.length ∧
        removeGroupGo removal hs str =
          some (hs', joinComma (hs'.map (fun h => h.hotkeyStr)))) := by
  intro removal
  induction removal with
  | nil => intro hs str; exact Or.inl ⟨rfl, rfl⟩
  | cons r rest ih =>
    intro hs str
    unfold removeGroupGo
    by_cases he : (hs.filter (fun m => !(_testHotkey r m.toView))).isEmpty = true
    · rw [if_pos he]
      exact Or.inr (Or.inl rfl)
    · rw [if_neg he]
      have hne : hs.filter (fun m => !(_testHotkey r m.toView)) ≠ [] :=
        List.isEmpty_eq_false.mp (Bool.eq_false_iff.mpr he)
      have hlen : (hs.filter (fun m => !(_testHotkey r m.toView))).length ≤
          hs.length := List.length_filter_le _ _
      rcases ih (hs.filter (fun m => !(_testHotkey r m.toView)))
          (joinComma ((hs.filter (fun m => !(_testHotkey r m.toView))).map
            (fun h => h.hotkeyStr))) with h | h | h
      · exact Or.inr (Or.inr ⟨_, hne, hlen, h.1⟩)
      · exact Or.inr (Or.inl h)
      · obtain ⟨hs', h1, h2, h3⟩ := h
        exact Or.inr (Or.inr ⟨hs', h1, le_trans h2 hlen, h3⟩)

/-- Every entry appended by a register call is well-formed. -/
lemma registerRun_wf (o : HotkeysOptions) (cb : Nat) (reg : List Entry)
    (ih : ∀ e ∈ reg, entryWF e) :
    ∀ e ∈ (registerHotkeyRun o cb reg).1, entryWF e := by
  intro e he
  cases hp : _getHotkeysFromOptions o with
  | error m =>
    simp only [registerHotkeyRun, registerHotkey, hp] at he
    exact ih e he
  | ok hks =>
    simp only [registerHotkeyRun, registerHotkey, hp] at he
    by_cases ht : o.triggerAll.getD false = true
    · rw [if_pos ht] at he
      simp only [List.mem_append] at he
      rcases he with he | he
      · exact ih e he
      · obtain ⟨h, _, rfl⟩ := List.mem_map.mp he
        trivial
    · rw [if_neg ht] at he
      simp only [List.mem_append, List.mem_singleton] at he
      rcases he with he | rfl
      · exact ih e he
      · exact parseTokens_ok_ne_nil _ _ _ hp (cmdsOf_ne_nil o)

/-- Every entry surviving a remove call is well-formed. -/
lemma removeRun_wf (o : HotkeysOptions) (reg : List Entry)
    (ih : ∀ e ∈ reg, entryWF e) :
    ∀ e ∈ (removeHotkeyRun o reg).1, entryWF e := by
  intro e he
  cases hp : _getHotkeysFromOptions { o with matchAllModifiers := some true } with
  | error m =>
    simp only [removeHotkeyRun, removeHotkey, hp] at he
    exact ih e he
  | ok removal =>
    simp only [removeHotkeyRun, removeHotkey, hp] at he
    obtain ⟨a, ha, hfe⟩ := List.mem_filterMap.mp he
    cases a with
    | single h cb =>
      replace hfe :
          (if (removal.any fun r => _testHotkey r h.toView) = true then none
           else some (Entry.single h cb)) = some e := hfe
      by_cases hany : (removal.any fun r => _testHotkey r h.toView) = true
      · rw [if_pos hany] at hfe; cases hfe
      · rw [if_neg hany] at hfe
        cases hfe
        trivial
    | group hs str cb =>
      replace hfe :
          (match removeGroupGo removal hs str with
            | none => none
            | some (hs', str') => some (Entry.group hs' str' cb)) = some e := hfe
      cases hg : removeGroupGo removal hs str with
      | none => rw [hg] at hfe; cases hfe
      | some p =>
        rw [hg] at hfe
        cases hfe
        exact removeGroupGo_some_ne_nil removal hs str p.1 p.2 (ih _ ha) hg

/-- Registry well-formedness holds at every reachable state. -/
lemma reachable_wf (reg : List Entry) (hr : Reachable reg) :
    ∀ e ∈ reg, entryWF e := by
  induction hr with
  | init => intro e he; cases he
  | register o cb _ ih => exact registerRun_wf o cb _ ih
  | remove o _ ih => exact removeRun_wf o _ ih

/-- C4 amended: at every reachable registry state a Group entry has a
non-empty predicate list (never a Group of size 0); and removing
predicates from a Group either drops the whole entry or yields a
non-empty Group of at most the original size whose display string is
recomputed as the ","-join of the surviving members' source texts.
(The displayText of a freshly registered Group is the trimmed original
specification string, which may differ from that join in whitespace.) -/
theorem C4_amended_group_invariant :
    (∀ reg, Reachable reg → ∀ e ∈ reg, entryWF e) ∧
    (∀ (removal hs : List Hotkey) (str : String) (cb : Nat), removal ≠ [] →
      removeFromEntry removal (.group hs str cb) = none ∨
      ∃ hs', hs' ≠ [] ∧ hs'.length ≤ hs.length ∧
        removeFromEntry removal (.group hs str cb) =
          some (.group hs' (joinComma (hs'.map (fun h => h.hotkeyStr))) cb)) := by
  constructor
  · exact fun reg hr => reachable_wf reg hr
  · intro removal hs str cb hrne
    rcases removeGroupGo_spec removal hs str with h | h | h
    · exact absurd h.2 hrne
    · left
      show (match removeGroupGo removal hs str with
        | none => none
        | some (hs', str') => some (Entry.group hs' str' cb)) = none
      rw [h]
    · right
      obtain ⟨hs', h1, h2, h3⟩ := h
      refine ⟨hs', h1, h2, ?_⟩
      show (match removeGroupGo removal hs str with
        | none => none
        | some (hs', str') => some (Entry.group hs' str' cb)) =
        some (.group hs' (joinComma (hs'.map (fun h => h.hotkeyStr))) cb)
      rw [h3]

/-- C4 amended witness: the invariant applied at the concrete reachable
state obtained by registering "ctrl + a, a", and the removal clause
applied to the removal predicate parsed from "b". -/
theorem C4_amended_witness :
    entryWF (Entry.group
      [⟨"ctrl + a", false, false, true, false, false, none, some (.num 65)⟩,
       ⟨"a", false, false, false, false, false, none, some (.num 65)⟩]
      "ctrl + a, a" 0) ∧
    (removeFromEntry [⟨"b", false, false, false, true, false, none, some (.num 66)⟩]
        (.group [⟨"a", false, false, false, false, false, none, some (.num 65)⟩]
          "a" 0) = none ∨
      ∃ hs', hs' ≠ [] ∧
        hs'.length ≤
          [(⟨"a", false, false, false, false, false, none, some (.num 65)⟩ : Hotkey)].length ∧
        removeFromEntry [⟨"b", false, false, false, true, false, none, some (.num 66)⟩]
          (.group [⟨"a", false, false, false, false, false, none, some (.num 65)⟩]
            "a" 0) =
          some (.group hs' (joinComma (hs'.map (fun h => h.hotkeyStr))) 0)) := by
  constructor
  · exact C4_amended_group_invariant.1 _
      (Reachable.register { hotkeys := "ctrl + a, a" } 0 Reachable.init) _
      (by decide)
  · exact C4_amended_group_invariant.2 _ _ _ _ (by decide)

/-- A main-key token the parser cannot resolve: a multi-character token
that is not in the named-key table, not "plus" and not a bare modifier
name (the condition under which line 158 throws). -/
def invalidMainKey (k : String) : Bool :=
  !(jsInCharsMap k) && !(k == "plus") && !(k == "shift") &&
    !(k == "ctrl") && !(k == "alt") && decide (k.data.length > 1)

/-- The first comma token whose main key is invalid, if any: the one
whose error aborts the parse. -/
def firstInvalid (sk : String) : List String → Option String
  | [] => none
  | c :: rest =>
    if invalidMainKey (mainKeyOf sk c) then some c
    else firstInvalid sk rest

/-- A token with an invalid main key makes `parseToken` throw the error
message naming that key. -/
lemma parseToken_of_invalid (cfg : ParseCfg) (cmd : String)
    (h : invalidMainKey (mainKeyOf cfg.splitKey cmd) = true) :
    parseToken cfg cmd = .error (errMsg (mainKeyOf cfg.splitKey cmd)) := by
  unfold invalidMainKey at h
  simp only [Bool.and_eq_true, Bool.not_eq_true', beq_eq_false_iff_ne,
    ne_eq, decide_eq_true_eq] at h
  obtain ⟨⟨⟨⟨⟨h1, h2⟩, h3⟩, h4⟩, h5⟩, h6⟩ := h
  unfold parseToken
  rw [if_neg (by simp [h1]), if_neg h2, if_neg h3, if_neg h4, if_neg h5,
    if_pos h6]

/-- A token with a valid main key parses successfully. -/
lemma parseToken_of_valid (cfg : ParseCfg) (cmd : String)
    (h : invalidMainKey (mainKeyOf cfg.splitKey cmd) = false) :
    ∃ hk, parseToken cfg cmd = .ok hk := by
  unfold parseToken
  split_ifs with h0 h1 h2 h3 h4 h5 h6
  · exact ⟨_, rfl⟩
  · exact ⟨_, rfl⟩
  · exact ⟨_, rfl⟩
  · exact ⟨_, rfl⟩
  · exact ⟨_, rfl⟩
  · exfalso
    unfold invalidMainKey at h
    have h0' : jsInCharsMap (mainKeyOf cfg.splitKey cmd) = false :=
      Bool.eq_false_iff.mpr h0
    simp [h0', h1, h2, h3, h4] at h
    exact absurd h5 (Nat.not_lt.mpr h)
  · exact ⟨_, rfl⟩
  · exact ⟨_, rfl⟩


/-- The first invalid token found is a member of the list and is indeed
invalid. -/
lemma firstInvalid_spec (sk : String) (cmds : List String) (c : String)
    (h : firstInvalid sk cmds = some c) :
    c ∈ cmds ∧ invalidMainKey (mainKeyOf sk c) = true := by
  induction cmds with
  | nil => cases h
  | cons hd tl ih =>
    unfold firstInvalid at h
    by_cases hb : invalidMainKey (mainKeyOf sk hd) = true
    · rw [if_pos hb] at h
      cases h
      exact ⟨List.mem_cons_self _ _, hb⟩
    · rw [if_neg hb] at h
      obtain ⟨hm, hi⟩ := ih h
      exact ⟨List.mem_cons_of_mem hd hm, hi⟩

/-- If some token is invalid, a first invalid token exists. -/
lemma firstInvalid_isSome (sk : String) (cmds : List String)
    (h : ∃ c ∈ cmds, invalidMainKey (mainKeyOf sk c) = true) :
    (firstInvalid sk cmds).isSome = true := by
  induction cmds with
  | nil => obtain ⟨c, hc, _⟩ := h; cases hc
  | cons hd tl ih =>
    unfold firstInvalid
    by_cases hb : invalidMainKey (mainKeyOf sk hd) = true
    · rw [if_pos hb]; rfl
    · rw [if_neg hb]
      obtain ⟨c, hc, hic⟩ := h
      rcases List.mem_cons.mp hc with rfl | hc
      · exact absurd hic hb
      · exact ih ⟨c, hc, hic⟩

/-- The token loop aborts with the error message of the first invalid
token. -/
lemma parseTokens_error_of_firstInvalid (cfg : ParseCfg)
    (cmds : List String) (c : String)
    (h : firstInvalid cfg.splitKey cmds = some c) :
    parseTokens cfg cmds = .error (errMsg (mainKeyOf cfg.splitKey c)) := by
  induction cmds with
  | nil => cases h
  | cons hd tl ih =>
    unfold firstInvalid at h
    by_cases hb : invalidMainKey (mainKeyOf cfg.splitKey hd) = true
    · rw [if_pos hb] at h
      cases h
      unfold parseTokens
      rw [parseToken_of_invalid cfg _ hb]
    · rw [if_neg hb] at h
      obtain ⟨hk, hok⟩ := parseToken_of_valid cfg hd
        (Bool.eq_false_iff.mpr hb)
      unfold parseTokens
      rw [hok, ih h]

/-- C6 counterexample: "toString" is a multi-character token that is
not in the named-key table (not an own key of `charsMap`), not "plus"
and not a bare modifier name, yet registering it does not fail: the
JavaScript `in` operator finds `toString` on the prototype chain, so
the parse takes the named-key branch, sets `rawcode` to the inherited
`Object.prototype.toString` member, and register succeeds, changing the
registry (remove likewise reports no error). -/
theorem C6_counterexample :
    charsMapLookup "toString" = none ∧
    ("toString" : String) ≠ "plus" ∧
    ("toString" : String) ∉ (["ctrl", "shift", "alt"] : List String) ∧
    ("toString" : String).data.length > 1 ∧
    registerHotkeyRun { hotkeys := "toString" } 0 [] =
      ([.group [⟨"toString", false, false, false, false, false, none,
          some (.inherited "toString")⟩] "toString" 0], none) ∧
    removeHotkeyRun { hotkeys := "toString" } [] = ([], none) := by
  exact ⟨rfl, by decide, by decide, by decide, rfl, rfl⟩

/-- C6 amended: if any comma token of a specification has a
multi-character main key that the `in` lookup on the named-key table
cannot resolve - neither an own key of the table nor a property name
inherited from `Object.prototype` (toString, valueOf, hasOwnProperty,
constructor, __proto__, ...) - and that is not "plus" and not a bare
modifier name, then both register and remove fail with the error
naming (the first) such a token's main key, produce no predicate list,
and leave the registry exactly as it was before the call. (A main key
that is an inherited `Object.prototype` name instead parses without
error into a predicate whose rawcode is the inherited member.) -/
theorem C6_invalid_token_atomic (o : HotkeysOptions) (cb : Nat)
    (reg : List Entry)
    (h : ∃ c ∈ cmdsOf o,
      invalidMainKey (mainKeyOf (resolvedSplitKey o) c) = true) :
    ∃ c ∈ cmdsOf o,
      invalidMainKey (mainKeyOf (resolvedSplitKey o) c) = true ∧
      registerHotkeyRun o cb reg =
        (reg, some (errMsg (mainKeyOf (resolvedSplitKey o) c))) ∧
      removeHotkeyRun o reg =
        (reg, some (errMsg (mainKeyOf (resolvedSplitKey o) c))) := by
  obtain ⟨c, hc⟩ := Option.isSome_iff_exists.mp
    (firstInvalid_isSome (resolvedSplitKey o) (cmdsOf o) h)
  obtain ⟨hmem, hinv⟩ := firstInvalid_spec _ _ _ hc
  have hreg : parseTokens (parseCfgOf o) (cmdsOf o) =
      .error (errMsg (mainKeyOf (resolvedSplitKey o) c)) :=
    parseTokens_error_of_firstInvalid (parseCfgOf o) (cmdsOf o) c hc
  have hrem : parseTokens (parseCfgOf { o with matchAllModifiers := some true })
      (cmdsOf { o with matchAllModifiers := some true }) =
      .error (errMsg (mainKeyOf (resolvedSplitKey o) c)) :=
    parseTokens_error_of_firstInvalid _ _ c hc
  refine ⟨c, hmem, hinv, ?_, ?_⟩
  · simp only [registerHotkeyRun, registerHotkey, _getHotkeysFromOptions, hreg]
  · simp only [removeHotkeyRun, removeHotkey, _getHotkeysFromOptions, hrem]

/-- C6 witness: the atomicity theorem applied to the specification
"ctrl + foo", whose main key "foo" is unrecognized, on the empty
registry. -/
theorem C6_invalid_token_witness :
    registerHotkeyRun { hotkeys := "ctrl + foo" } 0 [] =
      ([], some (errMsg "foo")) ∧
    removeHotkeyRun { hotkeys := "ctrl + foo" } [] =
      ([], some (errMsg "foo")) := by
  obtain ⟨c, hmem, _, hreg, hrem⟩ :=
    C6_invalid_token_atomic { hotkeys := "ctrl + foo" } 0 []
      ⟨"ctrl + foo", by decide, by decide⟩
  have hcm : cmdsOf { hotkeys := "ctrl + foo" } = ["ctrl + foo"] := by decide
  rw [hcm, List.mem_singleton] at hmem
  subst hmem
  have hmk : mainKeyOf (resolvedSplitKey { hotkeys := "ctrl + foo" })
      "ctrl + foo" = "foo" := by decide
  rw [hmk] at hreg hrem
  exact ⟨hreg, hrem⟩


end NodeHotkeys
